import Mathlib

/-!
Verification of the Slack-Clone client core: a shallow embedding of the
channel ordering, HTML sanitizer, mention tracking, selection persistence,
attachment mapping and scroll controller found in `src/App.tsx`,
`src/lib/chatService.ts`, `src/lib/mentionUtils.ts` and
`src/components/MessageList.tsx`, together with theorems about them.

JavaScript strings are modelled as Lean `String`; the JS string builtins
(`trim`, `toLowerCase`, `startsWith`, `includes`) are modelled by structural
functions on the character list so that all definitions evaluate inside the
kernel.  Machine dates (`Date.getTime()`) are modelled as `Int` milliseconds.
-/

/-- Model of the JS builtin `String.prototype.toLowerCase` (ASCII case map). -/
def jsToLower (s : String) : String := String.mk (s.data.map Char.toLower)

/-- Characters treated as whitespace by the JS builtin `String.prototype.trim`. -/
def jsIsSpace (c : Char) : Bool :=
  c = ' ' || c = '\t' || c = '\n' || c = '\r' || c = '\x0c' || c = '\x0b'

/-- Model of the JS builtin `String.prototype.trim`. -/
def jsTrim (s : String) : String :=
  String.mk (((s.data.dropWhile jsIsSpace).reverse.dropWhile jsIsSpace).reverse)

/-- Model of the JS builtin `String.prototype.startsWith`. -/
def jsStartsWith (s pre : String) : Bool := pre.data.isPrefixOf s.data

/-- Substring test on character lists (JS `String.prototype.includes`). -/
def listIncludes (l sub : List Char) : Bool :=
  match l with
  | [] => sub.isEmpty
  | _ :: t => sub.isPrefixOf l || listIncludes t sub

/-- Model of the JS builtin `String.prototype.includes`. -/
def strIncludes (s sub : String) : Bool := listIncludes s.data sub.data

/-- Model of JS `Number.parseInt(value, 10)`: skip leading whitespace, read an
optional sign and then leading decimal digits; `none` is `NaN`. -/
def parseIntJS (s : String) : Option Int :=
  let chars := s.data.dropWhile jsIsSpace
  let withSign : Bool × List Char :=
    match chars with
    | '-' :: t => (true, t)
    | '+' :: t => (false, t)
    | t => (false, t)
  let digits := withSign.2.takeWhile Char.isDigit
  if digits.isEmpty then none
  else
    let n : Nat := digits.foldl (fun acc c => acc * 10 + (c.toNat - 48)) 0
    some (if withSign.1 then -(n : Int) else (n : Int))

/-! ### Association lists

`Record<string, T>` objects and `window.localStorage` are both modelled as
ordered association lists with the JS update semantics: writing to an
existing key replaces its value in place, writing a fresh key appends. -/

/-- Read a key (JS property access / `localStorage.getItem`). -/
def alistGet {β : Type} (l : List (String × β)) (k : String) : Option β :=
  (l.find? (fun p => p.1 = k)).map (fun p => p.2)

/-- Write a key (JS property write / spread override / `localStorage.setItem`). -/
def alistSet {β : Type} (l : List (String × β)) (k : String) (v : β) :
    List (String × β) :=
  if l.any (fun p => p.1 = k) then
    l.map (fun p => if p.1 = k then (k, v) else p)
  else l ++ [(k, v)]

/-- Delete a key (JS rest-spread removal / `localStorage.removeItem`). -/
def alistRemove {β : Type} (l : List (String × β)) (k : String) :
    List (String × β) :=
  l.filter (fun p => p.1 ≠ k)

/-! ### Channel ordering (`listenToChannels` in `src/lib/chatService.ts`) -/

/-- A channel as mapped by `mapChannel`; `createdAt` is the timestamp in
milliseconds (`Date.getTime()`), absent when the server has not stamped it. -/
structure Channel where
  id : String
  name : String
  topic : Option String
  createdAt : Option Int
  createdBy : Option String
  organizationId : String
deriving DecidableEq

/-- The sort key used by the `listenToChannels` comparator:
`a.createdAt?.getTime() ?? 0`. -/
def channelSortKey (c : Channel) : Int := c.createdAt.getD 0

/-- The snapshot sort in `listenToChannels`: the JS stable builtin
`Array.prototype.sort` with comparator `(a, b) => aTime - bTime`, modelled by a
stable insertion sort over the induced key order. -/
def sortChannels (l : List Channel) : List Channel :=
  l.insertionSort (fun a b => channelSortKey a ≤ channelSortKey b)

instance channelSortKeyTotal :
    IsTotal Channel (fun a b => channelSortKey a ≤ channelSortKey b) :=
  ⟨fun a b => Int.le_total (channelSortKey a) (channelSortKey b)⟩

instance channelSortKeyTrans :
    IsTrans Channel (fun a b => channelSortKey a ≤ channelSortKey b) :=
  ⟨fun _ _ _ hab hbc => le_trans hab hbc⟩

/-! ### Handle derivation (`src/lib/mentionUtils.ts`) -/

/-- Characters kept by the `usernamePattern` strip regex `[^a-z0-9._-]+`. -/
def isUsernameChar (c : Char) : Bool :=
  ('a' ≤ c && c ≤ 'z') || ('0' ≤ c && c ≤ '9') || c = '.' || c = '_' || c = '-'

/-- `sanitizeUsername` from `mentionUtils.ts`: lower-case, then strip every
character outside `[a-z0-9._-]`; falsy input gives the empty string. -/
def sanitizeUsername (value : Option String) : String :=
  match value with
  | none => ""
  | some s => if s = "" then "" else String.mk ((jsToLower s).data.filter isUsernameChar)

/-- `buildUsernameCandidates` from `mentionUtils.ts`: the normalized fallback is
pushed first, then the normalized display name when distinct and non-empty. -/
def buildUsernameCandidates (displayName : String) (fallback : Option String) :
    List String :=
  let normalizedFallback := sanitizeUsername fallback
  let normalizedDisplay := sanitizeUsername (some displayName)
  let candidates := if normalizedFallback ≠ "" then [normalizedFallback] else []
  if normalizedDisplay ≠ "" && !(candidates.contains normalizedDisplay) then
    candidates ++ [normalizedDisplay]
  else candidates

/-- `deriveUsername` from `mentionUtils.ts`. -/
def deriveUsername (displayName : String) (fallback : Option String) : String :=
  (buildUsernameCandidates displayName fallback).headD ""

/-- Characters of the mention token class `[a-z0-9._-]` under the
case-insensitive flag of `mentionPattern = /@([a-z0-9._-]+)/gi`. -/
def isMentionChar (c : Char) : Bool :=
  ('a' ≤ c && c ≤ 'z') || ('A' ≤ c && c ≤ 'Z') || ('0' ≤ c && c ≤ '9') ||
    c = '.' || c = '_' || c = '-'

/-- Scanner for `mentionPattern`: the first argument holds the reversed token
being built after an `@`, `none` when not inside a candidate match.  Each
completed capture is emitted lower-cased, as in `match[1].toLowerCase()`. -/
def extractMentionsAux : Option (List Char) → List Char → List String
  | none, [] => []
  | some tok, [] =>
      if tok.isEmpty then [] else [String.mk (tok.reverse.map Char.toLower)]
  | none, c :: rest =>
      if c = '@' then extractMentionsAux (some []) rest
      else extractMentionsAux none rest
  | some tok, c :: rest =>
      if isMentionChar c then extractMentionsAux (some (c :: tok)) rest
      else
        (if tok.isEmpty then [] else [String.mk (tok.reverse.map Char.toLower)]) ++
          (if c = '@' then extractMentionsAux (some []) rest
           else extractMentionsAux none rest)

/-! ### Selection persistence (`src/App.tsx`) -/

/-- The browser `localStorage`, a string-to-string key-value store. -/
abbrev Store : Type := List (String × String)

/-- Key template `slack-clone:organization:${userId}`. -/
def organizationStorageKey (userId : String) : String :=
  "slack-clone:organization:" ++ userId

/-- Key template `slack-clone:channel:${userId}:${organizationId}`. -/
def channelStorageKey (userId organizationId : String) : String :=
  "slack-clone:channel:" ++ userId ++ ":" ++ organizationId

/-- The per-user channel-key namespace `slack-clone:channel:${userId}:` used by
`clearStoredSelectionsForUser`. -/
def channelKeyStart (userId : String) : String :=
  "slack-clone:channel:" ++ userId ++ ":"

/-- `readStoredOrganizationId` from `App.tsx`. -/
def readStoredOrganizationId (store : Store) (userId : String) : Option String :=
  alistGet store (organizationStorageKey userId)

/-- `persistOrganizationId` from `App.tsx`: a falsy id (null or empty string)
removes the key, otherwise the key is set. -/
def persistOrganizationId (store : Store) (userId : String)
    (organizationId : Option String) : Store :=
  match organizationId with
  | none => alistRemove store (organizationStorageKey userId)
  | some v =>
      if v = "" then alistRemove store (organizationStorageKey userId)
      else alistSet store (organizationStorageKey userId) v

/-- `readStoredChannelId` from `App.tsx`. -/
def readStoredChannelId (store : Store) (userId : String)
    (organizationId : Option String) : Option String :=
  match organizationId with
  | none => none
  | some o =>
      if o = "" then none else alistGet store (channelStorageKey userId o)

/-- `persistChannelId` from `App.tsx`. -/
def persistChannelId (store : Store) (userId : String)
    (organizationId : Option String) (channelId : Option String) : Store :=
  match organizationId with
  | none => store
  | some o =>
      if o = "" then store
      else
        match channelId with
        | none => alistRemove store (channelStorageKey userId o)
        | some c =>
            if c = "" then alistRemove store (channelStorageKey userId o)
            else alistSet store (channelStorageKey userId o) c

/-- `clearStoredSelectionsForUser` from `App.tsx`: remove the organization key,
then remove every key that starts with the user's channel-key namespace. -/
def clearStoredSelectionsForUser (store : Store) (userId : String) : Store :=
  let s1 := persistOrganizationId store userId none
  s1.filter (fun p => !(jsStartsWith p.1 (channelKeyStart userId)))

/-! ### DOM model and the sanitizer (`src/lib/sanitizeMessageHtml.ts`)

The browser's HTML parser, CSS engine and `innerHTML` serializer are external
collaborators; they are modelled here.  A DOM child list (forest) is one fused
inductive so that every traversal is structural and kernel-evaluable. -/

/-- A DOM forest: a sequence of sibling nodes.  `text` is a text node, `comm`
stands for any non-element non-text node (comment, CDATA, ...), `elem` is an
element with its attribute list in document order. -/
inductive Dom where
  | nil : Dom
  | text (s : String) (rest : Dom) : Dom
  | comm (s : String) (rest : Dom) : Dom
  | elem (tag : String) (attrs : List (String × String)) (children : Dom)
      (rest : Dom) : Dom
deriving DecidableEq

/-- Splicing one forest in front of another; models `unwrapElement`, which
moves each child of the element before the element and then removes it. -/
def Dom.append : Dom → Dom → Dom
  | .nil, d => d
  | .text s r, d => .text s (Dom.append r d)
  | .comm s r, d => .comm s (Dom.append r d)
  | .elem t a c r, d => .elem t a c (Dom.append r d)

/-- The `allowedTags` set from `sanitizeMessageHtml.ts`.  It has no entry for
the anchor tag. -/
def allowedTags : List String :=
  ["b", "strong", "i", "em", "u", "p", "br", "ul", "ol", "li", "blockquote",
   "code", "pre", "div"]

/-- The `allowedAttributes` record: only anchors may keep an attribute, and
only `href`. -/
def allowedAttributesFor (tag : String) : Option (List String) :=
  if tag = "a" then some ["href"] else none

/-- `isSafeHref`: the trimmed value must match `/^(https?:|mailto:)/i`. -/
def isSafeHref (value : Option String) : Bool :=
  match value with
  | none => false
  | some v =>
      if v = "" then false
      else
        let t := jsToLower (jsTrim v)
        jsStartsWith t "http:" || jsStartsWith t "https:" || jsStartsWith t "mailto:"

/-- DOM `Element.removeAttribute`. -/
def removeAttribute (attrs : List (String × String)) (name : String) :
    List (String × String) :=
  attrs.filter (fun p => p.1 ≠ name)

/-- DOM `Element.setAttribute`: update in place or append. -/
def setAttribute (attrs : List (String × String)) (name value : String) :
    List (String × String) :=
  if attrs.any (fun p => p.1 = name) then
    attrs.map (fun p => if p.1 = name then (name, value) else p)
  else attrs ++ [(name, value)]

/-- `sanitizeAttributes`: iterate over a snapshot of the element's attributes;
drop any attribute not allow-listed for the tag, drop an unsafe `href`, and on
a safe `href` force `rel="noreferrer noopener"` and `target="_blank"`.
`tagName` is the already lower-cased tag. -/
def sanitizeAttributes (tagName : String) (attrs : List (String × String)) :
    List (String × String) :=
  attrs.foldl (fun cur attr =>
    match allowedAttributesFor tagName with
    | none => removeAttribute cur attr.1
    | some allowed =>
        if !(allowed.contains attr.1) then removeAttribute cur attr.1
        else if attr.1 = "href" && !(isSafeHref (some attr.2)) then
          removeAttribute cur attr.1
        else if attr.1 = "href" then
          setAttribute (setAttribute cur "rel" "noreferrer noopener") "target" "_blank"
        else cur) attrs

/-- Split a character list on a separator character. -/
def splitOnChar (sep : Char) : List Char → List (List Char)
  | [] => [[]]
  | c :: rest =>
      match splitOnChar sep rest with
      | [] => if c = sep then [[], []] else [[c]]
      | h :: t => if c = sep then [] :: h :: t else (c :: h) :: t

/-- Split a CSS declaration at its first colon, if any. -/
def splitFirstColon : List Char → Option (List Char × List Char)
  | [] => none
  | c :: rest =>
      if c = ':' then some ([], rest)
      else (splitFirstColon rest).map (fun p => (c :: p.1, p.2))

/-- Model of the browser's parsed `element.style` object: the value of the
last `name: value` declaration for `prop` inside the `style` attribute, with
names compared lower-cased and values trimmed; `""` when absent. -/
def styleGet (attrs : List (String × String)) (prop : String) : String :=
  let styleStr := (alistGet attrs "style").getD ""
  let decls := (splitOnChar ';' styleStr.data).filterMap (fun d =>
    (splitFirstColon d).map (fun p =>
      (jsTrim (jsToLower (String.mk p.1)), jsTrim (String.mk p.2))))
  ((decls.reverse.find? (fun p => p.1 = prop)).map (fun p => p.2)).getD ""

/-- `hasBoldWeight`: a falsy value is not bold; otherwise any value containing
`bold`, or parsing to an integer of at least 500, is bold. -/
def hasBoldWeight (value : String) : Bool :=
  if value = "" then false
  else if strIncludes value "bold" then true
  else
    match parseIntJS value with
    | none => false
    | some n => n ≥ 500

/-- The wrapper tag list computed by `normalizeSpanElement`, in the fixed
order bold, italic, underline. -/
def normalizeSpanWrappers (attrs : List (String × String)) : List String :=
  (if hasBoldWeight (styleGet attrs "font-weight") then ["strong"] else []) ++
  (if styleGet attrs "font-style" ≠ "" &&
      strIncludes (styleGet attrs "font-style") "italic" then ["em"] else []) ++
  (let deco :=
    if styleGet attrs "text-decoration" ≠ "" then styleGet attrs "text-decoration"
    else styleGet attrs "text-decoration-line"
   if deco ≠ "" && strIncludes deco "underline" then ["u"] else [])

/-- Nested wrapper elements built by `normalizeSpanElement`: the innermost
wrapper receives the (already sanitized) former span children, and the whole
chain is followed by the given sibling forest. -/
def nestWrappers (ws : List String) (inner : Dom) (rest : Dom) : Dom :=
  match ws with
  | [] => rest
  | [w] => .elem w [] inner rest
  | w :: more => .elem w [] (nestWrappers more inner .nil) rest

/-- `sanitizeTree` applied to a snapshot of a parent's child list.  Text nodes
stay; other non-element nodes are removed; a span is rewritten into semantic
wrappers (whose contents are then sanitized) or unwrapped; a non-allow-listed
element is unwrapped, splicing its children in WITHOUT sanitizing them (the
snapshot taken by `Array.from` does not contain the promoted children); an
allow-listed element keeps its sanitized attributes and recurses. -/
def sanitizeTree : Dom → Dom
  | .nil => .nil
  | .text s rest => .text s (sanitizeTree rest)
  | .comm _ rest => sanitizeTree rest
  | .elem tag attrs children rest =>
      let t := jsToLower tag
      if t = "span" then
        let ws := normalizeSpanWrappers attrs
        if ws.isEmpty then Dom.append children (sanitizeTree rest)
        else nestWrappers ws (sanitizeTree children) (sanitizeTree rest)
      else if allowedTags.contains t then
        .elem tag (sanitizeAttributes t attrs) (sanitizeTree children)
          (sanitizeTree rest)
      else Dom.append children (sanitizeTree rest)

/-- Escaping of one text-node character by the `innerHTML` serializer. -/
def escapeTextChar (c : Char) : List Char :=
  if c = '&' then "&amp;".data
  else if c = '<' then "&lt;".data
  else if c = '>' then "&gt;".data
  else if c = '\u00A0' then "&nbsp;".data
  else [c]

/-- Escaping of one attribute-value character by the `innerHTML` serializer. -/
def escapeAttrChar (c : Char) : List Char :=
  if c = '&' then "&amp;".data
  else if c = '"' then "&quot;".data
  else if c = '\u00A0' then "&nbsp;".data
  else [c]

/-- Serialized attribute list, ` name="value"` per attribute. -/
def serializeAttrs (attrs : List (String × String)) : String :=
  attrs.foldl (fun acc p =>
    acc ++ " " ++ p.1 ++ "=\"" ++ String.mk (p.2.data.flatMap escapeAttrChar) ++ "\"")
    ""

/-- HTML void elements, serialized without a closing tag. -/
def voidTags : List String :=
  ["area", "base", "br", "col", "embed", "hr", "img", "input", "link", "meta",
   "param", "source", "track", "wbr"]

/-- Model of the browser's `innerHTML` getter on a forest. -/
def serializeDom : Dom → String
  | .nil => ""
  | .text s rest => String.mk (s.data.flatMap escapeTextChar) ++ serializeDom rest
  | .comm s rest => "<!--" ++ s ++ "-->" ++ serializeDom rest
  | .elem tag attrs children rest =>
      let t := jsToLower tag
      "<" ++ t ++ serializeAttrs attrs ++ ">" ++
        (if voidTags.contains t then "" else serializeDom children ++ "</" ++ t ++ ">") ++
        serializeDom rest

/-- The zero-width space stripped by the sanitizer. -/
def zwspChar : Char := '\u200B'

/-- Replacement of `/(&nbsp;)+/g` by a single space: the flag records whether
the scanner is inside a run of `&nbsp;` entities. -/
def collapseNbspAux (inRun : Bool) : List Char → List Char
  | '&' :: 'n' :: 'b' :: 's' :: 'p' :: ';' :: rest =>
      (if inRun then [] else [' ']) ++ collapseNbspAux true rest
  | c :: rest => c :: collapseNbspAux false rest
  | [] => []

/-- The regex `/<[^>]*>/g` removal used by `stripTags`: outside a tag, a `<`
with a later `>` opens a tag which is dropped through that first `>`; a `<`
with no later `>` never matches and the remainder is kept verbatim. -/
def stripTagsAux : Bool → List Char → List Char
  | false, [] => []
  | false, '<' :: rest =>
      if rest.contains '>' then stripTagsAux true rest else '<' :: rest
  | false, c :: rest => c :: stripTagsAux false rest
  | true, '>' :: rest => stripTagsAux false rest
  | true, _ :: rest => stripTagsAux true rest
  | true, [] => []

/-- `stripTags` from `sanitizeMessageHtml.ts`. -/
def stripTags (value : String) : String :=
  String.mk (stripTagsAux false value.data)

/-- `sanitizeMessageHtml`, DOM path: parse (external; the parse of `value` is
passed as `parsed`), sanitize the tree, re-serialize, then strip zero-width
spaces, collapse `&nbsp;` runs to one space and trim. -/
def sanitizeMessageHtml (value : String) (parsed : Dom) : String :=
  if value = "" then ""
  else
    jsTrim (String.mk (collapseNbspAux false
      (((serializeDom (sanitizeTree parsed)).data.filter (fun c => c ≠ zwspChar)))))

/-- `sanitizeMessageHtml`, fallback path taken when no DOM is available:
regex tag stripping followed by trim, with no attribute or scheme checks. -/
def sanitizeMessageHtmlNoDom (value : String) : String :=
  if value = "" then "" else jsTrim (stripTags value)

/-- Model of `Node.textContent` on a forest: concatenation of all text node
data, comments excluded. -/
def textContent : Dom → String
  | .nil => ""
  | .text s rest => s ++ textContent rest
  | .comm _ rest => textContent rest
  | .elem _ _ children rest => textContent children ++ textContent rest

/-- `plainTextFromHtml`, DOM path: `textContent` of the parse with zero-width
spaces removed. -/
def plainTextFromHtml (value : String) (parsed : Dom) : String :=
  if value = "" then ""
  else String.mk ((textContent parsed).data.filter (fun c => c ≠ zwspChar))

/-- `extractMentionsFromHtml` from `mentionUtils.ts`: mention tokens of the
plain-text rendering of the message HTML. -/
def extractMentionsFromHtml (html : String) (parsed : Dom) : List String :=
  if html = "" then []
  else extractMentionsAux none (plainTextFromHtml html parsed).data

/-! ### Message and attachment mapping (`src/lib/chatService.ts`) -/

/-- A Firestore document field value, as seen through `doc.get`: `time` is a
Firestore `Timestamp` (the only value with a `toDate` function), `t` being the
date in milliseconds. -/
inductive FireValue where
  | str (s : String) : FireValue
  | num (n : Int) : FireValue
  | boo (b : Bool) : FireValue
  | null : FireValue
  | arr (elems : List FireValue) : FireValue
  | obj (fields : List (String × FireValue)) : FireValue
  | time (t : Int) : FireValue

/-- Field access on a document or object (JS property read). -/
def getField (fields : List (String × FireValue)) (name : String) :
    Option FireValue :=
  alistGet fields name

/-- `mapTimestamp` from `chatService.ts`: only a truthy value with a `toDate`
function (a Firestore Timestamp) yields a date. -/
def mapTimestamp (fields : List (String × FireValue)) (field : String) :
    Option Int :=
  match getField fields field with
  | some (.time t) => some t
  | _ => none

/-- The `MessageAttachment` record of `chatService.ts`. -/
structure MessageAttachment where
  id : String
  name : String
  size : Int
  contentType : Option String
  url : String
  storagePath : Option String
  thumbnailUrl : Option String
  thumbnailStoragePath : Option String
  thumbnailWidth : Option Int
  thumbnailHeight : Option Int
deriving DecidableEq

/-- A string-typed field of an object, `none` when absent or differently
typed (the `typeof x === "string"` checks of `mapAttachment`). -/
def strField (fields : List (String × FireValue)) (name : String) :
    Option String :=
  match getField fields name with
  | some (.str s) => some s
  | _ => none

/-- A number-typed field of an object (`typeof x === "number"`). -/
def numField (fields : List (String × FireValue)) (name : String) :
    Option Int :=
  match getField fields name with
  | some (.num n) => some n
  | _ => none

/-- `mapAttachment` from `chatService.ts`: a falsy or non-object value is
rejected; so is any object without both a string `url` and a string `name`
(arrays and timestamps are `typeof "object"` but have no such fields, hence
fall to the same rejection).  The id falls back to a non-empty `storagePath`,
then a non-empty `url`, then the empty string. -/
def mapAttachment (value : FireValue) : Option MessageAttachment :=
  match value with
  | .obj data =>
      match strField data "url", strField data "name" with
      | some url, some name =>
          let fallbackId :=
            match strField data "storagePath" with
            | some sp => if sp ≠ "" then sp else (if url ≠ "" then url else "")
            | none => if url ≠ "" then url else ""
          some
            { id := (strField data "id").getD fallbackId
              name := name
              size := (numField data "size").getD 0
              contentType := strField data "contentType"
              url := url
              storagePath := strField data "storagePath"
              thumbnailUrl := strField data "thumbnailUrl"
              thumbnailStoragePath := strField data "thumbnailStoragePath"
              thumbnailWidth := numField data "thumbnailWidth"
              thumbnailHeight := numField data "thumbnailHeight" }
      | _, _ => none
  | _ => none

/-- `mapAttachments` from `chatService.ts`: a non-array (including an absent
field, `none` here) yields `[]`; an array is mapped elementwise and the
rejected elements are filtered out (`.filter(Boolean)`). -/
def mapAttachments (value : Option FireValue) : List MessageAttachment :=
  match value with
  | some (.arr elems) => (elems.map mapAttachment).filterMap id
  | _ => []

/-- The `Message` record of `chatService.ts`. -/
structure Message where
  id : String
  text : String
  author : String
  createdAt : Option Int
  attachments : List MessageAttachment
  authorProfilePictureUrl : Option String
deriving DecidableEq

/-- `mapMessage` from `chatService.ts`.  `doc.get('text') ?? ''` and
`doc.get('author') ?? 'Unknown'` are modelled for string-or-missing fields,
which is the documented document shape. -/
def mapMessage (docId : String) (fields : List (String × FireValue)) : Message :=
  let profilePictureValue := strField fields "authorProfilePictureUrl"
  { id := docId
    text := (strField fields "text").getD ""
    author := (strField fields "author").getD "Unknown"
    createdAt := mapTimestamp fields "createdAt"
    attachments := mapAttachments (getField fields "attachments")
    authorProfilePictureUrl :=
      match profilePictureValue with
      | some s => if jsTrim s ≠ "" then some s else none
      | none => none }

/-- Written from the claim, for comparison with `mapAttachment`: an attachment
record is well formed exactly when it is an object carrying a string `url` and
a string `name`. -/
def specWellFormedAttachment (value : FireValue) : Bool :=
  match value with
  | .obj data => (strField data "url").isSome && (strField data "name").isSome
  | _ => false

/-! ### Mention tracking (`src/App.tsx`) -/

/-- The `UserProfile` record of `userService.ts` (the fields the mention
tracker reads). -/
structure UserProfile where
  id : String
  email : String
  displayName : String
  profilePictureUrl : Option String
deriving DecidableEq

/-- A message delivered by `listenForNewMessages`: its author (possibly
absent), its stored HTML text, and the browser parse of that text (external
collaborator, carried alongside). -/
structure NewMessageEvent where
  author : Option String
  text : String
  textDom : Dom

/-- The mention-count map `mentionCounts : Record<string, number>`. -/
abbrev MentionCounts : Type := List (String × Int)

/-- Read one channel's count, `current[channelId]`. -/
def getCount (m : MentionCounts) (k : String) : Option Int := alistGet m k

/-- The increment `{...current, [channel.id]: (current[channel.id] ?? 0) + 1}`
performed by the `listenForNewMessages` callback. -/
def incrementMentionCount (current : MentionCounts) (channelId : String) :
    MentionCounts :=
  alistSet current channelId ((getCount current channelId).getD 0 + 1)

/-- The clear-on-select update from the `selectedChannelId` effect: when the
channel's entry is falsy (absent or 0) the map is returned unchanged,
otherwise the key is removed by rest-spread. -/
def clearMentionCount (current : MentionCounts) (channelId : String) :
    MentionCounts :=
  match getCount current channelId with
  | none => current
  | some v => if v = 0 then current else alistRemove current channelId

/-- The callback's `message.author?.trim().toLowerCase() ?? ''`. -/
def normalizedAuthorOf (message : NewMessageEvent) : String :=
  match message.author with
  | some a => jsToLower (jsTrim a)
  | none => ""

/-- The token-match test of the callback: the extracted mention tokens contain
the lower-cased username or one of the aliases. -/
def matchesMentionOf (u : String) (usernameAliases : List String)
    (message : NewMessageEvent) : Bool :=
  let mentionTokens := extractMentionsFromHtml message.text message.textDom
  mentionTokens.contains (jsToLower u) ||
    usernameAliases.any (fun a => mentionTokens.contains a)

/-- The `listenForNewMessages` callback body from `src/App.tsx` (lines
480-515), as a function of the ref values it reads and the incoming event:
missing username or profile aborts; a non-empty normalized author equal to the
viewer's normalized display name aborts; no token match aborts; an event for
the active channel aborts; otherwise the channel's count is incremented. -/
def processNewMessage (username : Option String) (usernameAliases : List String)
    (currentProfile : Option UserProfile) (activeChannelId : Option String)
    (channelId : String) (message : NewMessageEvent)
    (current : MentionCounts) : MentionCounts :=
  match username, currentProfile with
  | some u, some p =>
      if u = "" then current
      else
        let normalizedAuthor := normalizedAuthorOf message
        if normalizedAuthor ≠ "" &&
            normalizedAuthor = jsToLower (jsTrim p.displayName) then current
        else if !(matchesMentionOf u usernameAliases message) then current
        else if activeChannelId = some channelId then current
        else incrementMentionCount current channelId
  | _, _ => current

/-- Written from the amended claim, for comparison with `processNewMessage`:
the condition under which one event increments channel `channelId`. -/
def specMentionIncrementCond (u : String) (usernameAliases : List String)
    (p : UserProfile) (activeChannelId : Option String) (channelId : String)
    (message : NewMessageEvent) : Bool :=
  (normalizedAuthorOf message = "" ||
      normalizedAuthorOf message ≠ jsToLower (jsTrim p.displayName)) &&
    matchesMentionOf u usernameAliases message &&
    activeChannelId ≠ some channelId

/-- The reachable states of the mention-count map in `App.tsx`: it starts
empty, and every `setMentionCounts` call either processes one new-message
event, clears the newly selected channel, or resets the whole map. -/
inductive ReachableMentionCounts : MentionCounts → Prop where
  | empty : ReachableMentionCounts []
  | newMessage (username : Option String) (usernameAliases : List String)
      (currentProfile : Option UserProfile) (activeChannelId : Option String)
      (channelId : String) (message : NewMessageEvent) (m : MentionCounts) :
      ReachableMentionCounts m →
      ReachableMentionCounts (processNewMessage username usernameAliases
        currentProfile activeChannelId channelId message m)
  | clearSelected (m : MentionCounts) (channelId : String) :
      ReachableMentionCounts m →
      ReachableMentionCounts (clearMentionCount m channelId)
  | reset (m : MentionCounts) : ReachableMentionCounts m →
      ReachableMentionCounts []

/-! ### Scroll controller (`src/components/MessageList.tsx`) -/

/-- A scroll command issued through `scrollToBottom`. -/
inductive ScrollBehavior where
  | auto : ScrollBehavior
  | smooth : ScrollBehavior
deriving DecidableEq

/-- The controller state: the `isAtBottom` React state and the two refs. -/
structure ScrollState where
  isAtBottom : Bool
  lastMessageCount : Nat
  lastChannelId : Option String
deriving DecidableEq

/-- The channel-switch / following effect (`MessageList.tsx` lines 73-90). -/
def followEffect (channel : Option Channel) (messages : List Message)
    (st : ScrollState) : ScrollState × Option ScrollBehavior :=
  match channel with
  | none => ({ isAtBottom := true, lastMessageCount := 0, lastChannelId := none }, none)
  | some ch =>
      if some ch.id ≠ st.lastChannelId then
        ({ st with
            lastChannelId := some ch.id
            lastMessageCount := messages.length
            isAtBottom := true }, some .auto)
      else if st.isAtBottom then
        (st, some (if messages.length > 0 then .smooth else .auto))
      else (st, none)

/-- The self-posted effect (`MessageList.tsx` lines 92-115): a falsy channel
or viewer name only records the message count; otherwise, when the list grew
and some newly appended message was authored (trimmed, case-insensitively) by
the viewer, scroll smoothly and mark as following. -/
def selfPostedEffect (channel : Option Channel) (currentUserName : Option String)
    (messages : List Message) (st : ScrollState) :
    ScrollState × Option ScrollBehavior :=
  match channel, currentUserName with
  | some _, some name =>
      if name = "" then ({ st with lastMessageCount := messages.length }, none)
      else
        let previousCount := st.lastMessageCount
        let st1 := { st with lastMessageCount := messages.length }
        if messages.length ≤ previousCount then (st1, none)
        else
          let addedMessages := messages.drop previousCount
          let normalizedCurrentUser := jsToLower (jsTrim name)
          let selfPosted := addedMessages.any (fun m =>
            jsToLower (jsTrim m.author) == normalizedCurrentUser)
          if selfPosted then ({ st1 with isAtBottom := true }, some .smooth)
          else (st1, none)
  | _, _ => ({ st with lastMessageCount := messages.length }, none)

/-- One message-list update: React runs the two effects in declaration order;
the emitted scroll commands are collected in order. -/
def messageListUpdate (channel : Option Channel) (currentUserName : Option String)
    (messages : List Message) (st : ScrollState) :
    ScrollState × List ScrollBehavior :=
  let r1 := followEffect channel messages st
  let r2 := selfPostedEffect channel currentUserName messages r1.1
  (r2.1, r1.2.toList ++ r2.2.toList)

/-! ### Association-list lemmas -/

theorem alistGet_cons {β : Type} (hd : String × β) (tl : List (String × β)) (k : String) :
    alistGet (hd :: tl) k = if hd.1 = k then some hd.2 else alistGet tl k := by
  by_cases h : hd.1 = k
  · simp [alistGet, List.find?_cons, h]
  · simp [alistGet, List.find?_cons, h]

theorem alistGet_map_replace_self {β : Type} (l : List (String × β)) (k : String) (v : β)
    (hy : l.any (fun p => p.1 = k) = true) :
    alistGet (l.map (fun p => if p.1 = k then (k, v) else p)) k = some v := by
  induction l with
  | nil => simp at hy
  | cons hd tl ih =>
      by_cases h : hd.1 = k
      · simp [alistGet_cons, h]
      · simp only [List.any_cons, Bool.or_eq_true] at hy
        rcases hy with hy | hy
        · exact absurd (by simpa using hy) h
        · simpa [alistGet_cons, h] using ih hy

theorem alistGet_map_replace_ne {β : Type} (l : List (String × β)) (k k2 : String) (v : β)
    (h : k2 ≠ k) :
    alistGet (l.map (fun p => if p.1 = k then (k, v) else p)) k2 = alistGet l k2 := by
  induction l with
  | nil => rfl
  | cons hd tl ih =>
      by_cases hh : hd.1 = k
      · have hk2 : ¬ (k = k2) := fun hk => h hk.symm
        have hd2 : ¬ (hd.1 = k2) := fun hk => h (hh ▸ hk).symm
        simpa [alistGet_cons, hh, hk2, hd2] using ih
      · by_cases h2 : hd.1 = k2
        · simp [alistGet_cons, hh, h2, h]
        · simpa [alistGet_cons, hh, h2] using ih

theorem alistGet_append_single_self {β : Type} (l : List (String × β)) (k : String) (v : β)
    (hy : l.any (fun p => p.1 = k) = false) :
    alistGet (l ++ [(k, v)]) k = some v := by
  induction l with
  | nil => simp [alistGet_cons]
  | cons hd tl ih =>
      simp only [List.any_cons, Bool.or_eq_false_iff] at hy
      have h1 : ¬ hd.1 = k := by simpa using hy.1
      simp only [List.cons_append, alistGet_cons, h1, if_neg]
      exact ih (by simpa using hy.2)

theorem alistGet_append_single_ne {β : Type} (l : List (String × β)) (k k2 : String) (v : β)
    (h : k2 ≠ k) :
    alistGet (l ++ [(k, v)]) k2 = alistGet l k2 := by
  induction l with
  | nil =>
      have hk : ¬ (k = k2) := fun e => h e.symm
      simp [alistGet_cons, hk, alistGet]
  | cons hd tl ih =>
      by_cases h2 : hd.1 = k2
      · simp [alistGet_cons, h2]
      · simpa [alistGet_cons, h2] using ih

theorem alistGet_set_self {β : Type} (l : List (String × β)) (k : String) (v : β) :
    alistGet (alistSet l k v) k = some v := by
  unfold alistSet
  by_cases hy : l.any (fun p => p.1 = k)
  · rw [if_pos hy]; exact alistGet_map_replace_self l k v hy
  · rw [if_neg hy]; exact alistGet_append_single_self l k v (by rwa [Bool.not_eq_true] at hy)

theorem alistGet_set_ne {β : Type} (l : List (String × β)) (k k2 : String) (v : β)
    (h : k2 ≠ k) : alistGet (alistSet l k v) k2 = alistGet l k2 := by
  unfold alistSet
  by_cases hy : l.any (fun p => p.1 = k)
  · rw [if_pos hy]; exact alistGet_map_replace_ne l k k2 v h
  · rw [if_neg hy]; exact alistGet_append_single_ne l k k2 v h

theorem alistGet_remove_self {β : Type} (l : List (String × β)) (k : String) :
    alistGet (alistRemove l k) k = none := by
  induction l with
  | nil => rfl
  | cons hd tl ih =>
      by_cases h : hd.1 = k
      · simpa [alistRemove, List.filter_cons, h] using ih
      · simpa [alistRemove, List.filter_cons, h, alistGet_cons] using ih

theorem alistGet_remove_ne {β : Type} (l : List (String × β)) (k k2 : String)
    (h : k2 ≠ k) : alistGet (alistRemove l k) k2 = alistGet l k2 := by
  have hk : ¬ (k = k2) := fun e => h e.symm
  induction l with
  | nil => rfl
  | cons hd tl ih =>
      by_cases hh : hd.1 = k
      · simpa [alistRemove, List.filter_cons, hh, alistGet_cons, hk] using ih
      · by_cases h2 : hd.1 = k2
        · simp [alistRemove, List.filter_cons, hh, alistGet_cons, h2, h]
        · simpa [alistRemove, List.filter_cons, hh, alistGet_cons, h2] using ih

theorem alistGet_filter_none {β : Type} (l : List (String × β)) (k : String)
    (p : String × β → Bool) (h : ∀ v, p (k, v) = false) :
    alistGet (l.filter p) k = none := by
  induction l with
  | nil => rfl
  | cons hd tl ih =>
      by_cases hk : hd.1 = k
      · have : p hd = false := by
          have : hd = (k, hd.2) := by
            cases hd; simp at hk; simp [hk]
          rw [this]; exact h hd.2
        simpa [List.filter, this] using ih
      · by_cases hp : p hd
        · simpa [List.filter, hp, alistGet_cons, hk] using ih
        · simpa [List.filter, hp] using ih

theorem alistGet_filter_of_none {β : Type} (l : List (String × β)) (k : String)
    (p : String × β → Bool) (h : alistGet l k = none) :
    alistGet (l.filter p) k = none := by
  induction l with
  | nil => rfl
  | cons hd tl ih =>
      by_cases hk : hd.1 = k
      · rw [alistGet_cons, if_pos hk] at h; cases h
      · rw [alistGet_cons, if_neg hk] at h
        by_cases hp : p hd
        · simpa [List.filter, hp, alistGet_cons, hk] using ih h
        · simpa [List.filter, hp] using ih h

/-! ### Claim theorems -/

/-- Filtering at a fixed sort key commutes with `orderedInsert`: the elements
skipped before the insertion point all have keys strictly below the inserted
element's key, so they never share its key. -/
theorem filter_orderedInsert (a : Channel) (l : List Channel) (t : Int) :
    (List.orderedInsert (fun x y => channelSortKey x ≤ channelSortKey y) a l).filter
        (fun c => channelSortKey c = t) =
      if channelSortKey a = t then
        a :: l.filter (fun c => channelSortKey c = t)
      else l.filter (fun c => channelSortKey c = t) := by
  induction l with
  | nil =>
      by_cases h : channelSortKey a = t <;> simp [List.orderedInsert, h]
  | cons b l ih =>
      by_cases hr : channelSortKey a ≤ channelSortKey b
      · rw [List.orderedInsert_of_le _ l hr]
        by_cases h : channelSortKey a = t <;> simp [List.filter_cons, h]
      · have hins : List.orderedInsert (fun x y => channelSortKey x ≤ channelSortKey y)
            a (b :: l) =
            b :: List.orderedInsert (fun x y => channelSortKey x ≤ channelSortKey y) a l := by
          dsimp only [List.orderedInsert]
          rw [if_neg hr]
        rw [hins]
        have hb : channelSortKey b < channelSortKey a := lt_of_not_le hr
        by_cases h : channelSortKey a = t
        · have hbt : ¬ (channelSortKey b = t) := by
            rw [← h]
            exact ne_of_lt hb
          simp [List.filter_cons, hbt, ih, h]
        · simp [List.filter_cons, ih, h]

/-- The elements of each fixed sort key keep their snapshot order through
`sortChannels`: the sort is stable, as `Array.prototype.sort` is. -/
theorem filter_sortChannels (l : List Channel) (t : Int) :
    (sortChannels l).filter (fun c => channelSortKey c = t) =
      l.filter (fun c => channelSortKey c = t) := by
  induction l with
  | nil => rfl
  | cons a l ih =>
      have hs : sortChannels (a :: l) =
          List.orderedInsert (fun x y => channelSortKey x ≤ channelSortKey y) a
            (sortChannels l) := rfl
      rw [hs, filter_orderedInsert]
      by_cases h : channelSortKey a = t
      · simp [List.filter_cons, h, ih]
      · simp [List.filter_cons, h, ih]

/-- C1, counterexample: the claim says undated channels sort after all dated
channels, any two undated channels sort alphabetically by name, and the
example snapshot `[{id:"a", createdAt:null, name:"zeta"},
{id:"b", createdAt:t1, name:"alpha"}]` is delivered as `[b, a]`.  The
comparator in `listenToChannels` treats a missing creation time as time 0, so
with `t1 = 1000` the undated channel stays first and the delivered order is
`[a, b]`, not `[b, a]`; and two undated channels named `zeta` and `alpha`
(equal keys) keep their snapshot order `[zeta, alpha]` instead of being
reordered alphabetically to `[alpha, zeta]`. -/
theorem sortChannels_undated_first_counterexample :
    sortChannels [⟨"a", "zeta", none, none, none, "org"⟩,
        ⟨"b", "alpha", none, some 1000, none, "org"⟩] =
      [⟨"a", "zeta", none, none, none, "org"⟩,
        ⟨"b", "alpha", none, some 1000, none, "org"⟩] ∧
    sortChannels [⟨"a", "zeta", none, none, none, "org"⟩,
        ⟨"b", "alpha", none, some 1000, none, "org"⟩] ≠
      [⟨"b", "alpha", none, some 1000, none, "org"⟩,
        ⟨"a", "zeta", none, none, none, "org"⟩] ∧
    sortChannels [⟨"c", "zeta", none, none, none, "org"⟩,
        ⟨"d", "alpha", none, none, none, "org"⟩] =
      [⟨"c", "zeta", none, none, none, "org"⟩,
        ⟨"d", "alpha", none, none, none, "org"⟩] ∧
    sortChannels [⟨"c", "zeta", none, none, none, "org"⟩,
        ⟨"d", "alpha", none, none, none, "org"⟩] ≠
      [⟨"d", "alpha", none, none, none, "org"⟩,
        ⟨"c", "zeta", none, none, none, "org"⟩] := by decide

/-- C1, amended: every snapshot delivered by `listenToChannels` is a
permutation of the mapped documents sorted ascending by
`createdAt?.getTime() ?? 0`, so a channel lacking a creation time is ordered
as if created at time 0, before every channel with a positive creation time;
there is no name tie-break: for each sort key, the channels carrying that key
(in particular any two undated channels) keep their snapshot order, the sort
being stable. -/
theorem sortChannels_sorted_perm (l : List Channel) :
    (sortChannels l).Sorted (fun a b => channelSortKey a ≤ channelSortKey b) ∧
      (sortChannels l).Perm l ∧
      ∀ t : Int, (sortChannels l).filter (fun c => channelSortKey c = t) =
        l.filter (fun c => channelSortKey c = t) :=
  ⟨List.sorted_insertionSort _ l, List.perm_insertionSort _ l,
   fun t => filter_sortChannels l t⟩

/-- C2, failing input: `allowedTags` has no entry for the anchor tag, so
`sanitizeTree` unwraps every anchor before `sanitizeAttributes` could ever
keep a safe `href`; on `<a href="https://example.com">hi</a>` the href is safe
by `isSafeHref`, yet the output is the bare text `hi` with no anchor element,
no `target="_blank"` and no `rel="noreferrer noopener"`. -/
theorem sanitizeMessageHtml_drops_safe_anchor :
    isSafeHref (some "https://example.com") = true ∧
      sanitizeMessageHtml "<a href=\"https://example.com\">hi</a>"
        (.elem "a" [("href", "https://example.com")] (.text "hi" .nil) .nil) = "hi" ∧
      strIncludes (sanitizeMessageHtml "<a href=\"https://example.com\">hi</a>"
        (.elem "a" [("href", "https://example.com")] (.text "hi" .nil) .nil))
        "<a" = false := by decide

/-- C3, failing input: unwrapping a disallowed element splices its children
into the parent without sanitizing them (`Array.from` snapshots the child list
before the promotion), so `<x><script>alert(1)</script></x>` sanitizes to
`<script>alert(1)</script>`, which contains `<script`; and on the fallback
path the regex `<[^>]*>` does not match an unterminated tag, so
`hello <script` passes through unchanged. -/
theorem sanitizeMessageHtml_emits_script :
    sanitizeMessageHtml "<x><script>alert(1)</script></x>"
        (.elem "x" [] (.elem "script" [] (.text "alert(1)" .nil) .nil) .nil) =
      "<script>alert(1)</script>" ∧
      strIncludes (sanitizeMessageHtml "<x><script>alert(1)</script></x>"
        (.elem "x" [] (.elem "script" [] (.text "alert(1)" .nil) .nil) .nil))
        "<script" = true ∧
      sanitizeMessageHtmlNoDom "hello <script" = "hello <script" := by decide

/-- C5, counterexample: the claim says the primary handle (first candidate) is
the normalized display name whenever both the display name and the email local
part normalize to something non-empty.  `buildUsernameCandidates` pushes the
normalized fallback first: for display name `Ada Lovelace` and email local
part `ada` the candidates are `["ada", "adalovelace"]`, whose head is the
fallback-derived handle, not the display-name handle `adalovelace`. -/
theorem buildUsernameCandidates_fallback_first_counterexample :
    buildUsernameCandidates "Ada Lovelace" (some "ada") = ["ada", "adalovelace"] ∧
      sanitizeUsername (some "Ada Lovelace") = "adalovelace" ∧
      ("ada" : String) ≠ "adalovelace" := by decide

/-- C5, amended: whenever both the fallback (email local part) and the display
name normalize to non-empty handles, the primary handle returned first by
`buildUsernameCandidates` is the normalized fallback, and the normalized
display name appears only as the alias (omitted when the two coincide). -/
theorem buildUsernameCandidates_fallback_primary
    (displayName : String) (fallback : String)
    (hf : sanitizeUsername (some fallback) ≠ "")
    (hd : sanitizeUsername (some displayName) ≠ "") :
    buildUsernameCandidates displayName (some fallback) =
      if sanitizeUsername (some fallback) = sanitizeUsername (some displayName)
      then [sanitizeUsername (some fallback)]
      else [sanitizeUsername (some fallback), sanitizeUsername (some displayName)] := by
  unfold buildUsernameCandidates
  by_cases heq : sanitizeUsername (some fallback) = sanitizeUsername (some displayName)
  · simp [hf, hd, heq]
  · have hne : sanitizeUsername (some displayName) ≠ sanitizeUsername (some fallback) :=
      fun e => heq e.symm
    simp [hf, hd, heq, hne]

/-- C5, witness: for display name `Ada Lovelace` and fallback `bob`, the
amended statement instantiates to a concrete candidate list. -/
theorem buildUsernameCandidates_fallback_primary_witness :
    buildUsernameCandidates "Ada Lovelace" (some "bob") =
      if sanitizeUsername (some "bob") = sanitizeUsername (some "Ada Lovelace")
      then [sanitizeUsername (some "bob")]
      else [sanitizeUsername (some "bob"), sanitizeUsername (some "Ada Lovelace")] :=
  buildUsernameCandidates_fallback_primary "Ada Lovelace" "bob" (by decide) (by decide)

/-! ### Helper lemmas for the mention-count map and the key-value store -/

theorem clearMentionCount_eq_self_or_remove (m : MentionCounts) (c : String) :
    clearMentionCount m c = m ∨ clearMentionCount m c = alistRemove m c := by
  unfold clearMentionCount
  cases hg : getCount m c with
  | none => exact Or.inl rfl
  | some v =>
      by_cases hv : v = 0
      · exact Or.inl (by simp [hv])
      · exact Or.inr (by simp [hv])

theorem jsStartsWith_append (a b : String) : jsStartsWith (a ++ b) a = true := by
  simp [jsStartsWith, String.data_append, List.isPrefixOf_iff_prefix]

/-- C6: selecting channel `c` clears exactly that channel's entry: afterwards
the entry for `c` is absent or 0, and every other channel's entry is exactly
what it was before. -/
theorem clearMentionCount_only_selected (m : MentionCounts) (c : String) :
    (getCount (clearMentionCount m c) c = none ∨
      getCount (clearMentionCount m c) c = some 0) ∧
    ∀ k, k ≠ c → getCount (clearMentionCount m c) k = getCount m k := by
  cases hg : getCount m c with
  | none =>
      have he : clearMentionCount m c = m := by unfold clearMentionCount; rw [hg]
      rw [he]
      exact ⟨Or.inl hg, fun k hk => rfl⟩
  | some v =>
      by_cases hv : v = 0
      · have he : clearMentionCount m c = m := by
          unfold clearMentionCount; rw [hg]; simp [hv]
        rw [he]
        exact ⟨Or.inr (hv ▸ hg), fun k hk => rfl⟩
      · have he : clearMentionCount m c = alistRemove m c := by
          unfold clearMentionCount; rw [hg]; simp [hv]
        rw [he]
        exact ⟨Or.inl (alistGet_remove_self m c), fun k hk => alistGet_remove_ne m c k hk⟩

/-- C6, witness at a concrete map: selecting `c1` removes its entry and leaves
the `c2` entry untouched. -/
theorem clearMentionCount_only_selected_witness :
    (getCount (clearMentionCount [("c1", 2), ("c2", 5)] "c1") "c1" = none ∨
      getCount (clearMentionCount [("c1", 2), ("c2", 5)] "c1") "c1" = some 0) ∧
    getCount (clearMentionCount [("c1", 2), ("c2", 5)] "c1") "c2" =
      getCount [("c1", 2), ("c2", 5)] "c2" :=
  ⟨(clearMentionCount_only_selected [("c1", 2), ("c2", 5)] "c1").1,
   (clearMentionCount_only_selected [("c1", 2), ("c2", 5)] "c1").2 "c2" (by decide)⟩

/-- C7: persisting a (non-empty) organization id and then restoring it returns
that id; after `clearStoredSelectionsForUser` the organization key reads back
nothing and every channel key namespaced under the user reads back nothing. -/
theorem selectionPersistence_roundtrip (s1 s2 : Store) (u o : String) (ho : o ≠ "") :
    readStoredOrganizationId (persistOrganizationId s1 u (some o)) u = some o ∧
    readStoredOrganizationId (clearStoredSelectionsForUser s2 u) u = none ∧
    ∀ o2, readStoredChannelId (clearStoredSelectionsForUser s2 u) u (some o2) = none := by
  have hclear : clearStoredSelectionsForUser s2 u =
      (alistRemove s2 (organizationStorageKey u)).filter
        (fun p => !(jsStartsWith p.1 (channelKeyStart u))) := rfl
  refine ⟨?_, ?_, ?_⟩
  · have he : persistOrganizationId s1 u (some o) =
        alistSet s1 (organizationStorageKey u) o := by
      unfold persistOrganizationId
      simp [ho]
    unfold readStoredOrganizationId
    rw [he]
    exact alistGet_set_self s1 (organizationStorageKey u) o
  · unfold readStoredOrganizationId
    rw [hclear]
    exact alistGet_filter_of_none _ _ _ (alistGet_remove_self s2 (organizationStorageKey u))
  · intro o2
    by_cases h2 : o2 = ""
    · simp [readStoredChannelId, h2]
    · have he : readStoredChannelId (clearStoredSelectionsForUser s2 u) u (some o2) =
          alistGet (clearStoredSelectionsForUser s2 u) (channelStorageKey u o2) := by
        simp [readStoredChannelId, h2]
      rw [he, hclear]
      apply alistGet_filter_none
      intro v
      have hs : jsStartsWith (channelStorageKey u o2) (channelKeyStart u) = true := by
        have hkey : channelStorageKey u o2 = channelKeyStart u ++ o2 := rfl
        rw [hkey]
        exact jsStartsWith_append (channelKeyStart u) o2
      simp [hs]

/-- C7, witness: a concrete round trip through an initially empty store and a
concrete clear of a store holding both selection keys for the user. -/
theorem selectionPersistence_roundtrip_witness :
    readStoredOrganizationId (persistOrganizationId [] "u1" (some "org1")) "u1" =
      some "org1" ∧
    readStoredOrganizationId (clearStoredSelectionsForUser
      [(organizationStorageKey "u1", "org1"),
       (channelStorageKey "u1" "org1", "chan7")] "u1") "u1" = none ∧
    readStoredChannelId (clearStoredSelectionsForUser
      [(organizationStorageKey "u1", "org1"),
       (channelStorageKey "u1" "org1", "chan7")] "u1") "u1" (some "org1") = none :=
  ⟨(selectionPersistence_roundtrip [] [(organizationStorageKey "u1", "org1"),
       (channelStorageKey "u1" "org1", "chan7")] "u1" "org1" (by decide)).1,
   (selectionPersistence_roundtrip [] [(organizationStorageKey "u1", "org1"),
       (channelStorageKey "u1" "org1", "chan7")] "u1" "org1" (by decide)).2.1,
   (selectionPersistence_roundtrip [] [(organizationStorageKey "u1", "org1"),
       (channelStorageKey "u1" "org1", "chan7")] "u1" "org1" (by decide)).2.2 "org1"⟩

theorem getCount_increment_self (m : MentionCounts) (c : String) :
    getCount (incrementMentionCount m c) c = some ((getCount m c).getD 0 + 1) :=
  alistGet_set_self m c _

theorem getCount_increment_ne (m : MentionCounts) (c k : String) (h : k ≠ c) :
    getCount (incrementMentionCount m c) k = getCount m k :=
  alistGet_set_ne m c k _ h

theorem processNewMessage_eq_increment_of_cond (u : String)
    (usernameAliases : List String) (p : UserProfile)
    (activeChannelId : Option String) (channelId : String)
    (message : NewMessageEvent) (current : MentionCounts) (hu : u ≠ "")
    (hc : specMentionIncrementCond u usernameAliases p activeChannelId channelId
      message = true) :
    processNewMessage (some u) usernameAliases (some p) activeChannelId channelId
      message current = incrementMentionCount current channelId := by
  by_cases h1 : normalizedAuthorOf message = "" <;>
  by_cases h2 : normalizedAuthorOf message = jsToLower (jsTrim p.displayName) <;>
  by_cases h3 : matchesMentionOf u usernameAliases message = true <;>
  by_cases h4 : activeChannelId = some channelId <;>
  simp_all [processNewMessage, specMentionIncrementCond, hu]

theorem processNewMessage_eq_self_of_not_cond (u : String)
    (usernameAliases : List String) (p : UserProfile)
    (activeChannelId : Option String) (channelId : String)
    (message : NewMessageEvent) (current : MentionCounts)
    (hc : specMentionIncrementCond u usernameAliases p activeChannelId channelId
      message = false) :
    processNewMessage (some u) usernameAliases (some p) activeChannelId channelId
      message current = current := by
  by_cases hu0 : u = ""
  · simp [processNewMessage, hu0]
  · by_cases h1 : normalizedAuthorOf message = "" <;>
    by_cases h2 : normalizedAuthorOf message = jsToLower (jsTrim p.displayName) <;>
    by_cases h3 : matchesMentionOf u usernameAliases message = true <;>
    by_cases h4 : activeChannelId = some channelId <;>
    simp_all [processNewMessage, specMentionIncrementCond]

/-- C4, counterexample: the claim requires, among its three conditions, that
the author differs from the viewer's display name (trimmed,
case-insensitively).  For author `""` and viewer display name `"  "` the two
normalize to the same (empty) string, so the claim says the map must stay
unchanged; the code skips the self-author rejection whenever the normalized
author is empty and increments the count anyway. -/
theorem processNewMessage_empty_author_counterexample :
    normalizedAuthorOf ⟨some "", "hey @bob", .text "hey @bob" .nil⟩ =
      jsToLower (jsTrim "  ") ∧
    processNewMessage (some "bob") []
        (some ⟨"p1", "bob@example.com", "  ", none⟩) (some "other") "c1"
        ⟨some "", "hey @bob", .text "hey @bob" .nil⟩ [] = [("c1", 1)] ∧
    ([] : MentionCounts) ≠ [("c1", 1)] := by decide

/-- C4, amended: with an active tracker (non-empty username, profile present),
one delivered event increments `mentionCounts[channelId]` by exactly 1 and
leaves every other entry unchanged exactly when: the normalized author is
empty or differs from the viewer's normalized display name (the self-author
rejection applies only to non-empty authors), the extracted mention tokens
contain the handle or an alias, and the channel is not the active one; in
every other case the map is returned unchanged. -/
theorem processNewMessage_increment_iff (u : String)
    (usernameAliases : List String) (p : UserProfile)
    (activeChannelId : Option String) (channelId : String)
    (message : NewMessageEvent) (current : MentionCounts) (hu : u ≠ "") :
    (specMentionIncrementCond u usernameAliases p activeChannelId channelId message
        = true →
      processNewMessage (some u) usernameAliases (some p) activeChannelId channelId
          message current = incrementMentionCount current channelId ∧
        getCount (processNewMessage (some u) usernameAliases (some p) activeChannelId
            channelId message current) channelId =
          some ((getCount current channelId).getD 0 + 1) ∧
        ∀ k, k ≠ channelId →
          getCount (processNewMessage (some u) usernameAliases (some p)
              activeChannelId channelId message current) k = getCount current k) ∧
    (specMentionIncrementCond u usernameAliases p activeChannelId channelId message
        = false →
      processNewMessage (some u) usernameAliases (some p) activeChannelId channelId
          message current = current) := by
  constructor
  · intro hc
    have he := processNewMessage_eq_increment_of_cond u usernameAliases p
      activeChannelId channelId message current hu hc
    refine ⟨he, ?_, ?_⟩
    · rw [he]; exact getCount_increment_self current channelId
    · intro k hk; rw [he]; exact getCount_increment_ne current channelId k hk
  · intro hc
    exact processNewMessage_eq_self_of_not_cond u usernameAliases p activeChannelId
      channelId message current hc

/-- C4, witness: a concrete matching event for an inactive channel increments
that channel's count from absent to 1 and leaves the other entry unchanged. -/
theorem processNewMessage_increment_iff_witness :
    processNewMessage (some "bob") [] (some ⟨"p2", "e@x.io", "Alice", none⟩)
        (some "other") "c1" ⟨some "eve", "hey @bob", .text "hey @bob" .nil⟩
        [("c2", 3)] = incrementMentionCount [("c2", 3)] "c1" ∧
    getCount (processNewMessage (some "bob") [] (some ⟨"p2", "e@x.io", "Alice", none⟩)
        (some "other") "c1" ⟨some "eve", "hey @bob", .text "hey @bob" .nil⟩
        [("c2", 3)]) "c1" = some 1 ∧
    getCount (processNewMessage (some "bob") [] (some ⟨"p2", "e@x.io", "Alice", none⟩)
        (some "other") "c1" ⟨some "eve", "hey @bob", .text "hey @bob" .nil⟩
        [("c2", 3)]) "c2" = getCount [("c2", 3)] "c2" := by
  have h := (processNewMessage_increment_iff "bob" [] ⟨"p2", "e@x.io", "Alice", none⟩
    (some "other") "c1" ⟨some "eve", "hey @bob", .text "hey @bob" .nil⟩
    [("c2", 3)] (by decide)).1 (by decide)
  exact ⟨h.1, h.2.1.trans (by decide), h.2.2 "c2" (by decide)⟩

/-- C8: on a message-list update in the current channel (`lastChannelId`
matches) while the viewer is not at the bottom, the controller scrolls (one
smooth scroll command) and marks the view as following exactly when some newly
appended message beyond the last observed count is authored, after trimming
and lower-casing, by the viewer; otherwise it issues no scroll command and the
view stays non-following. -/
theorem messageListUpdate_self_posted_scroll
    (ch : Channel) (name : String) (messages : List Message) (st : ScrollState)
    (hname : name ≠ "")
    (hsame : st.lastChannelId = some ch.id)
    (hbot : st.isAtBottom = false) :
    ((messages.drop st.lastMessageCount).any
        (fun m => jsToLower (jsTrim m.author) == jsToLower (jsTrim name)) = true →
      (messageListUpdate (some ch) (some name) messages st).2 =
          [ScrollBehavior.smooth] ∧
        (messageListUpdate (some ch) (some name) messages st).1.isAtBottom = true) ∧
    ((messages.drop st.lastMessageCount).any
        (fun m => jsToLower (jsTrim m.author) == jsToLower (jsTrim name)) = false →
      (messageListUpdate (some ch) (some name) messages st).2 = [] ∧
        (messageListUpdate (some ch) (some name) messages st).1.isAtBottom = false) := by
  have hf : followEffect (some ch) messages st = (st, none) := by
    unfold followEffect
    rw [hsame]
    simp [hbot]
  by_cases hlen : messages.length ≤ st.lastMessageCount
  · have hdrop : messages.drop st.lastMessageCount = [] :=
      List.drop_eq_nil_of_le hlen
    constructor
    · intro habs
      rw [hdrop] at habs
      simp at habs
    · intro _
      simp [messageListUpdate, hf, selfPostedEffect, hname, hlen, hbot]
  · cases hsp : (messages.drop st.lastMessageCount).any
        (fun m => jsToLower (jsTrim m.author) == jsToLower (jsTrim name)) with
    | true =>
        constructor
        · intro _
          simp [messageListUpdate, hf, selfPostedEffect, hname, hlen, hsp]
        · intro habs
          simp at habs
    | false =>
        constructor
        · intro habs
          simp at habs
        · intro _
          simp [messageListUpdate, hf, selfPostedEffect, hname, hlen, hsp, hbot]

/-- C8, witness: with one prior message observed and a newly appended message
authored ` ADA ` while the viewer is `Ada`, the controller issues a smooth
scroll and marks the view as following. -/
theorem messageListUpdate_self_posted_scroll_witness :
    (messageListUpdate (some ⟨"c1", "general", none, none, none, "org"⟩)
        (some "Ada")
        [⟨"m1", "hi", "Bob", none, [], none⟩, ⟨"m2", "yo", " ADA ", none, [], none⟩]
        ⟨false, 1, some "c1"⟩).2 = [ScrollBehavior.smooth] ∧
    (messageListUpdate (some ⟨"c1", "general", none, none, none, "org"⟩)
        (some "Ada")
        [⟨"m1", "hi", "Bob", none, [], none⟩, ⟨"m2", "yo", " ADA ", none, [], none⟩]
        ⟨false, 1, some "c1"⟩).1.isAtBottom = true :=
  (messageListUpdate_self_posted_scroll ⟨"c1", "general", none, none, none, "org"⟩
    "Ada" [⟨"m1", "hi", "Bob", none, [], none⟩, ⟨"m2", "yo", " ADA ", none, [], none⟩]
    ⟨false, 1, some "c1"⟩ (by decide) (by decide) (by decide)).1 (by decide)

/-- C9: an attachment record maps successfully exactly when it is an object
with a string `url` and a string `name`; an attachments array is mapped
elementwise with the malformed entries dropped individually; any non-array
attachments value yields the empty list; and the mapped text of a message
depends only on its `text` field, so a message whose attachments are all
filtered out keeps its text intact. -/
theorem mapAttachments_filters_malformed :
    (∀ v : FireValue, (mapAttachment v).isSome = specWellFormedAttachment v) ∧
    (∀ elems : List FireValue,
        mapAttachments (some (.arr elems)) = elems.filterMap mapAttachment) ∧
    (∀ v : Option FireValue, (∀ elems, v ≠ some (.arr elems)) →
        mapAttachments v = []) ∧
    (∀ docId : String, ∀ f1 f2 : List (String × FireValue),
        getField f1 "text" = getField f2 "text" →
        (mapMessage docId f1).text = (mapMessage docId f2).text) := by
  refine ⟨?_, ?_, ?_, ?_⟩
  · intro v
    cases v with
    | obj data =>
        cases hu : strField data "url" <;> cases hn : strField data "name" <;>
          simp [mapAttachment, specWellFormedAttachment, hu, hn]
    | str s => rfl
    | num n => rfl
    | boo b => rfl
    | null => rfl
    | arr elems => rfl
    | time t => rfl
  · intro elems
    simp [mapAttachments, List.filterMap_map]
  · intro v h
    cases v with
    | none => rfl
    | some fv =>
        cases fv with
        | arr elems => exact absurd rfl (h elems)
        | str s => rfl
        | num n => rfl
        | boo b => rfl
        | null => rfl
        | obj fields => rfl
        | time t => rfl
  · intro docId f1 f2 h
    simp [mapMessage, strField, h]

/-- C9, witness: a non-array attachments value maps to the empty list, and a
message whose attachments field is malformed keeps the same text as one
without it. -/
theorem mapAttachments_filters_malformed_witness :
    mapAttachments (some (.str "nope")) = [] ∧
    (mapMessage "m1" [("text", FireValue.str "hello")]).text =
      (mapMessage "m1" [("text", FireValue.str "hello"),
        ("attachments", FireValue.boo true)]).text :=
  ⟨mapAttachments_filters_malformed.2.2.1 (some (.str "nope"))
      (fun elems h => by injection h with h2; exact FireValue.noConfusion h2),
   mapAttachments_filters_malformed.2.2.2 "m1" _ _ rfl⟩

theorem processNewMessage_eq_self_or_increment (username : Option String)
    (usernameAliases : List String) (currentProfile : Option UserProfile)
    (activeChannelId : Option String) (channelId : String)
    (message : NewMessageEvent) (current : MentionCounts) :
    processNewMessage username usernameAliases currentProfile activeChannelId
        channelId message current = current ∨
      processNewMessage username usernameAliases currentProfile activeChannelId
        channelId message current = incrementMentionCount current channelId := by
  cases username with
  | none => exact Or.inl rfl
  | some u =>
      cases currentProfile with
      | none => exact Or.inl rfl
      | some p =>
          by_cases hu : u = ""
          · exact Or.inl (by simp [processNewMessage, hu])
          · cases hc : specMentionIncrementCond u usernameAliases p activeChannelId
                channelId message with
            | true =>
                exact Or.inr (processNewMessage_eq_increment_of_cond u
                  usernameAliases p activeChannelId channelId message current hu hc)
            | false =>
                exact Or.inl (processNewMessage_eq_self_of_not_cond u
                  usernameAliases p activeChannelId channelId message current hc)

/-- C10: in every reachable mention-count map, every stored entry is strictly
positive — the map starts empty and is only ever changed by incrementing one
key by 1, removing a key, or resetting to empty. -/
theorem mentionCounts_values_positive :
    ∀ m : MentionCounts, ReachableMentionCounts m →
      ∀ k v, getCount m k = some v → 0 < v := by
  intro m h
  induction h with
  | empty =>
      intro k v hv
      simp [getCount, alistGet] at hv
  | newMessage u al p act c msg m0 hm ih =>
      intro k v hv
      rcases processNewMessage_eq_self_or_increment u al p act c msg m0 with he | he
      · rw [he] at hv
        exact ih k v hv
      · rw [he] at hv
        by_cases hk : k = c
        · subst hk
          rw [getCount_increment_self m0 k] at hv
          injection hv with hv2
          cases hg : getCount m0 k with
          | none =>
              rw [hg] at hv2
              simp only [Option.getD_none] at hv2
              omega
          | some w =>
              have hw := ih k w hg
              rw [hg] at hv2
              simp only [Option.getD_some] at hv2
              omega
        · rw [getCount_increment_ne m0 c k hk] at hv
          exact ih k v hv
  | clearSelected m0 c hm ih =>
      intro k v hv
      rcases clearMentionCount_eq_self_or_remove m0 c with he | he
      · rw [he] at hv
        exact ih k v hv
      · rw [he] at hv
        by_cases hk : k = c
        · subst hk
          have h2 : getCount (alistRemove m0 k) k = none := alistGet_remove_self m0 k
          rw [h2] at hv
          cases hv
        · have h3 : getCount (alistRemove m0 c) k = getCount m0 k :=
            alistGet_remove_ne m0 c k hk
          rw [h3] at hv
          exact ih k v hv
  | reset m0 hm ih =>
      intro k v hv
      simp [getCount, alistGet] at hv

/-- C10, witness: the reachable map obtained by processing one matching
mention event holds the value 1 for the mentioned channel, and 1 is
positive. -/
theorem mentionCounts_values_positive_witness : (0 : Int) < 1 :=
  mentionCounts_values_positive
    (processNewMessage (some "bob") [] (some ⟨"p3", "e@x.io", "Alice", none⟩) none
      "general" ⟨some "eve", "hey @bob", .text "hey @bob" .nil⟩ [])
    (ReachableMentionCounts.newMessage _ _ _ _ _ _ _ ReachableMentionCounts.empty)
    "general" 1 (by decide)
